import Mathlib

/-!
Verification of the GDQ schedule block (`src/blocks/gdq.rs`).

The development shallowly embeds the three core components of the block:

* the Row Pairer (the `while let` loop pairing consecutive table rows),
* the Entry Builder (`impl TryFrom<Record> for Entry` plus the ingestion
  loop that skips failing records), and
* the Timeline Selector (the sort / `position` / `remove` / `find` logic
  of `GDQ::update`).

Timestamps (`chrono::DateTime<Utc>`) are embedded as integers counting
seconds since the Unix epoch; `chrono::Duration` values are embedded as
integer numbers of seconds.  The external chrono parsers
(`DateTime::parse_from_rfc3339` and `NaiveTime::parse_from_str` with the
`"%T"` format) are modelled as executable Lean functions over the string
contents; every claim about the builder is conditional on the parse
outcome, so only the parsers' option-shaped interface matters to the
theorems, not their internal details.
-/

namespace GDQ

/-- The validated schedule entry (struct `Entry` in `gdq.rs`). -/
structure Entry where
  start_time : Int
  length : Option Int
  setup_time : Option Int
  title : String
  runner : String
  category : String
  host : String
deriving Repr, DecidableEq

/-- The raw seven-field record (struct `Record` in `gdq.rs`), one field per
pipe-separated column. -/
structure Record where
  start_time : String
  title : String
  runner : String
  setup_time : String
  length : String
  category : String
  host : String
deriving Repr, DecidableEq

/-- Numeric value of a decimal digit character, `none` otherwise. -/
def digitVal (c : Char) : Option Nat :=
  if c.isDigit then some (c.toNat - 48) else none

/-- Parse exactly two decimal digits. -/
def twoDigits (a b : Char) : Option Nat := do
  let x ← digitVal a
  let y ← digitVal b
  pure (10 * x + y)

/-- Parse exactly four decimal digits. -/
def fourDigits (a b c d : Char) : Option Nat := do
  let x ← twoDigits a b
  let y ← twoDigits c d
  pure (100 * x + y)

/-- Gregorian leap-year test. -/
def isLeapYear (y : Int) : Bool :=
  (y % 4 = 0 && y % 100 ≠ 0) || y % 400 = 0

/-- Number of days in a month of a given year. -/
def daysInMonth (y : Int) (m : Nat) : Nat :=
  if m = 2 then (if isLeapYear y then 29 else 28)
  else if m = 4 || m = 6 || m = 9 || m = 11 then 30
  else 31

/-- Days from 1970-01-01 to the civil date `y-m-d` (Howard Hinnant's
`days_from_civil` algorithm, the standard proleptic-Gregorian conversion
used by calendar libraries such as chrono). -/
def daysFromCivil (y : Int) (m d : Nat) : Int :=
  let y2 : Int := if m ≤ 2 then y - 1 else y
  let era : Int := (if 0 ≤ y2 then y2 else y2 - 399) / 400
  let yoe : Int := y2 - era * 400
  let mp : Int := if 2 < m then (m : Int) - 3 else (m : Int) + 9
  let doy : Int := (153 * mp + 2) / 5 + (d : Int) - 1
  let doe : Int := yoe * 365 + yoe / 4 - yoe / 100 + doy
  era * 146097 + doe - 719468

/-- Parse a numeric UTC-offset suffix `Z`, `+HH:MM` or `-HH:MM`, returning
the offset in seconds. -/
def parseOffset : List Char → Option Int
  | ['Z'] => some 0
  | ['+', h1, h2, ':', m1, m2] => do
    let h ← twoDigits h1 h2
    let m ← twoDigits m1 m2
    if h < 24 && m < 60 then pure ((h : Int) * 3600 + (m : Int) * 60) else none
  | ['-', h1, h2, ':', m1, m2] => do
    let h ← twoDigits h1 h2
    let m ← twoDigits m1 m2
    if h < 24 && m < 60 then pure (-((h : Int) * 3600 + (m : Int) * 60)) else none
  | _ => none

/-- Strip an optional fractional-second component `.d+` (the sub-second
digits do not contribute to whole-second timestamps). -/
def dropFrac : List Char → Option (List Char)
  | '.' :: rest =>
    if (rest.takeWhile Char.isDigit).isEmpty then none
    else some (rest.dropWhile Char.isDigit)
  | other => some other

/-- Model of the external chrono parser `DateTime::parse_from_rfc3339`
followed by `.into::<DateTime<Utc>>()`: accepts
`YYYY-MM-DDTHH:MM:SS[.frac](Z|+HH:MM|-HH:MM)` and yields seconds since the
Unix epoch, already normalised to UTC.  Any other shape fails. -/
def parseRFC3339 (s : String) : Option Int :=
  match s.data with
  | y1 :: y2 :: y3 :: y4 :: '-' :: mo1 :: mo2 :: '-' :: d1 :: d2 :: 'T' ::
    h1 :: h2 :: ':' :: mi1 :: mi2 :: ':' :: s1 :: s2 :: rest => do
    let y ← fourDigits y1 y2 y3 y4
    let mo ← twoDigits mo1 mo2
    let d ← twoDigits d1 d2
    let h ← twoDigits h1 h2
    let mi ← twoDigits mi1 mi2
    let se ← twoDigits s1 s2
    let tail ← dropFrac rest
    let off ← parseOffset tail
    if 1 ≤ mo && mo ≤ 12 && 1 ≤ d && d ≤ daysInMonth (y : Int) mo &&
        h < 24 && mi < 60 && se < 61 then
      pure (daysFromCivil (y : Int) mo d * 86400 +
        (h : Int) * 3600 + (mi : Int) * 60 + (se : Int) - off)
    else none
  | _ => none

/-- Split a character list on a separator character. -/
def splitOnChar (c : Char) : List Char → List (List Char)
  | [] => [[]]
  | x :: xs =>
    if x == c then [] :: splitOnChar c xs
    else
      match splitOnChar c xs with
      | [] => [[x]]
      | y :: ys => (x :: y) :: ys

/-- Parse a one- or two-digit clock component. -/
def clockComponent : List Char → Option Nat
  | [a] => digitVal a
  | [a, b] => twoDigits a b
  | _ => none

/-- Model of the external chrono call
`NaiveTime::parse_from_str(s, "%T").map(|t| t - NaiveTime::from_hms(0,0,0))`:
parses `H:M:S` clock text and yields the elapsed seconds since midnight
(a non-negative number). -/
def parseHMS (s : String) : Option Nat :=
  match splitOnChar ':' s.data with
  | [h, m, sec] => do
    let hn ← clockComponent h
    let mn ← clockComponent m
    let sn ← clockComponent sec
    if hn < 24 && mn < 60 && sn < 61 then pure (hn * 3600 + mn * 60 + sn)
    else none
  | _ => none

/-- The Entry Builder: `impl TryFrom<Record> for Entry` in `gdq.rs`.
`start_time` must parse (RFC 3339) or the record is rejected; `setup_time`
and `length` are best-effort and fall back to `None` on parse failure. -/
def entryTryFrom (r : Record) : Option Entry :=
  match parseRFC3339 r.start_time with
  | none => none
  | some start_time =>
    some { start_time := start_time
           length := (parseHMS r.length).map (fun n => (n : Int))
           setup_time := (parseHMS r.setup_time).map (fun n => (n : Int))
           title := r.title
           runner := r.runner
           category := r.category
           host := r.host }

/-- The ingestion loop of `GDQ::update` (lines 181-191): records whose
conversion fails are skipped with `continue`, successes are pushed in
order. -/
def buildEntries (rs : List Record) : List Entry :=
  rs.filterMap entryTryFrom

/-- The Row Pairer: the `while let` loop of `GDQ::update` (lines 151-171)
consumes two rows per iteration; when only one row remains, the `continue`
re-enters the loop head, the iterator is exhausted and the trailing row is
dropped. -/
def pairRows {α : Type} : List α → List (α × α)
  | [] => []
  | [_] => []
  | x :: y :: rest => (x, y) :: pairRows rest

/-- The comparator key order used by `entries.sort_by`: ascending
`start_time`. -/
def entryLE (a b : Entry) : Prop := a.start_time ≤ b.start_time

instance : DecidableRel entryLE :=
  fun a b => inferInstanceAs (Decidable (a.start_time ≤ b.start_time))

instance : IsTotal Entry entryLE :=
  ⟨fun a b => Int.le_total a.start_time b.start_time⟩

instance : IsTrans Entry entryLE :=
  ⟨fun _ _ _ h1 h2 => Int.le_trans h1 h2⟩

/-- The sort of `GDQ::update` line 194.  Rust's `Vec::sort_by` is a stable
sort; a stable sort by a fixed total preorder has a unique result, here
realised by stable insertion sort. -/
def sortEntries (l : List Entry) : List Entry :=
  l.insertionSort entryLE

/-- The end of an entry's schedule window:
`e.start_time.add(e.length.unwrap_or(Duration::seconds(0)))`. -/
def windowEnd (e : Entry) : Int :=
  e.start_time + e.length.getD 0

/-- The predicate of the `position` scan (lines 196-200): window end
strictly greater than `now`. -/
def wEndGt (now : Int) (e : Entry) : Bool :=
  decide (now < windowEnd e)

/-- The predicate of the `find` scan (line 208): start strictly greater
than `now`. -/
def startGt (now : Int) (e : Entry) : Bool :=
  decide (now < e.start_time)

/-- The selection step of `GDQ::update` on an already-sorted list:
`position` of the first entry whose window end exceeds `now`
(`None` models the early `ERR` return), then `remove` of that index, then
`find` of the first remaining entry starting after `now`. -/
def selectSorted (l : List Entry) (now : Int) : Option (Entry × Option Entry) :=
  match l.findIdx? (wEndGt now) with
  | none => none
  | some i =>
    match l[i]? with
    | none => none
    | some current => some (current, (l.eraseIdx i).find? (startGt now))

/-- The Timeline Selector (lines 193-213): sort, then select. -/
def select (entries : List Entry) (now : Int) : Option (Entry × Option Entry) :=
  selectSorted (sortEntries entries) now

/-- Structural restatement of `position` plus `remove`: return the first
element satisfying the window-end test together with the list with that
element removed.  `selectSorted` is proved equal to a scan through this
function. -/
def selectScan (now : Int) : List Entry → Option (Entry × List Entry)
  | [] => none
  | x :: xs =>
    if wEndGt now x then some (x, xs)
    else (selectScan now xs).map (fun p => (p.1, x :: p.2))

/-- The text written to the widget: `"ERR"` when no current entry exists,
otherwise `format!("{} -> {}", current.title, next title or "None")`. -/
def renderSelection : Option (Entry × Option Entry) → String
  | none => "ERR"
  | some (cur, nxt) =>
    cur.title ++ " -> " ++ (match nxt with | some n => n.title | none => "None")

/-- The selection-and-render tail of one `GDQ::update` pass over built
entries. -/
def renderUpdate (entries : List Entry) (now : Int) : String :=
  renderSelection (select entries now)

/-- The `Ord` comparison on timestamps (chrono `DateTime` ordering). -/
def timestampOrd (a b : Int) : Ordering :=
  if a < b then Ordering.lt else if a = b then Ordering.eq else Ordering.gt

/-- Model of `a.partial_cmp(&b)` on `DateTime<Utc>`: defined through the
total `Ord` instance, hence never `None`. -/
def timestampCmpOpt (a b : Int) : Option Ordering :=
  some (timestampOrd a b)

/-- Stable ordered insert threaded through the fallible comparator of
line 194: a `None` comparator result (the unwrap panic) aborts the sort
with `none`. -/
def orderedInsertChk (x : Entry) : List Entry → Option (List Entry)
  | [] => some [x]
  | y :: ys =>
    match timestampCmpOpt x.start_time y.start_time with
    | none => none
    | some Ordering.gt => (orderedInsertChk x ys).map (fun r => y :: r)
    | some _ => some (x :: y :: ys)

/-- The sort of line 194 with the comparator unwrap made explicit: `none`
models a panic inside `sort_by`. -/
def sortEntriesChk : List Entry → Option (List Entry)
  | [] => some []
  | x :: xs => do orderedInsertChk x (← sortEntriesChk xs)

/-- One selection-and-render pass with the comparator unwrap made
explicit; `none` models a panic escaping `GDQ::update`. -/
def renderUpdateChk (entries : List Entry) (now : Int) : Option String :=
  (sortEntriesChk entries).map (fun sorted => renderSelection (selectSorted sorted now))

/-! Concrete sample data used by the witnesses and counterexamples. -/

/-- Sample run starting at time 0, 100 seconds long. -/
def runA : Entry := ⟨0, some 100, none, "A", "", "", ""⟩

/-- Sample run starting at time 50, 100 seconds long. -/
def runB : Entry := ⟨50, some 100, none, "B", "", "", ""⟩

/-- Sample entry with an absent (hence zero-width) length, starting at
time 10. -/
def zeroLenEntry : Entry := ⟨10, none, none, "Z", "", "", ""⟩

/-- Sample run starting at time 0, 50 seconds long (already over at time
100). -/
def endedEntry : Entry := ⟨0, some 50, none, "E", "", "", ""⟩

/-- Sample record whose `start_time` text is not RFC 3339. -/
def badRec : Record := ⟨"not-a-date", "T", "R", "0:10:00", "1:00:00", "C", "H"⟩

/-- Sample record with a valid `start_time` and unparsable durations. -/
def goodRec : Record := ⟨"2024-01-01T00:00:00Z", "T", "R", "bogus", "", "C", "H"⟩

/-! Helper lemmas about the selection scan. -/

theorem selectScan_eq_none_iff (now : Int) (l : List Entry) :
    selectScan now l = none ↔ ∀ e ∈ l, wEndGt now e = false := by
  induction l with
  | nil => simp [selectScan]
  | cons x xs ih =>
    by_cases hx : wEndGt now x
    · simp [selectScan, hx]
    · simp only [selectScan, if_neg hx, Option.map_eq_none]
      simp only [Bool.not_eq_true] at hx
      simp [ih, hx]

theorem selectScan_map_fst (now : Int) (l : List Entry) :
    (selectScan now l).map Prod.fst = l.find? (wEndGt now) := by
  induction l with
  | nil => simp [selectScan]
  | cons x xs ih =>
    by_cases hx : wEndGt now x
    · simp [selectScan, hx, List.find?_cons]
    · simp only [Bool.not_eq_true] at hx
      have hcomp : (Prod.fst ∘ fun p : Entry × List Entry => (p.1, x :: p.2)) =
          Prod.fst := rfl
      simp [selectScan, hx, List.find?_cons, Option.map_map, hcomp, ih]

theorem selectScan_eq_some (now : Int) (l : List Entry) (c : Entry)
    (r : List Entry) (h : selectScan now l = some (c, r)) :
    ∃ pre post, l = pre ++ c :: post ∧ r = pre ++ post ∧
      (∀ e ∈ pre, wEndGt now e = false) ∧ wEndGt now c = true := by
  induction l generalizing r with
  | nil => simp [selectScan] at h
  | cons x xs ih =>
    by_cases hx : wEndGt now x
    · rw [selectScan, if_pos hx] at h
      obtain ⟨hc, hr⟩ : x = c ∧ xs = r := by simpa [Prod.ext_iff] using h
      subst hc; subst hr
      exact ⟨[], xs, by simp, by simp, by simp, hx⟩
    · rw [selectScan, if_neg hx] at h
      obtain ⟨⟨c2, r2⟩, hscan, heq⟩ := Option.map_eq_some'.mp h
      obtain ⟨hc, hr⟩ : c2 = c ∧ x :: r2 = r := by simpa [Prod.ext_iff] using heq
      subst hc; subst hr
      obtain ⟨pre, post, hl, hr2, hpre, hc2⟩ := ih r2 hscan
      refine ⟨x :: pre, post, by simp [hl], by simp [hr2], ?_, hc2⟩
      intro e he
      rcases List.mem_cons.mp he with he1 | he2
      · subst he1; simpa using hx
      · exact hpre e he2

theorem selectScan_none_iff_findIdx (now : Int) (l : List Entry) :
    selectScan now l = none ↔ l.findIdx? (wEndGt now) = none := by
  induction l with
  | nil => simp [selectScan]
  | cons x xs ih =>
    by_cases hx : wEndGt now x
    · simp [selectScan, List.findIdx?_cons, hx]
    · simp [selectScan, List.findIdx?_cons, hx, List.findIdx?_succ,
        Option.map_eq_none, ih]

theorem selectScan_of_findIdx (now : Int) (l : List Entry) (i : Nat)
    (h : l.findIdx? (wEndGt now) = some i) :
    ∃ c, l[i]? = some c ∧ selectScan now l = some (c, l.eraseIdx i) := by
  induction l generalizing i with
  | nil => simp at h
  | cons x xs ih =>
    rw [List.findIdx?_cons] at h
    by_cases hx : wEndGt now x
    · rw [if_pos hx] at h
      obtain hi : i = 0 := by simpa using h.symm
      subst hi
      exact ⟨x, by simp, by rw [selectScan, if_pos hx]; rfl⟩
    · rw [if_neg hx, List.findIdx?_succ] at h
      obtain ⟨j, hj, hij⟩ := Option.map_eq_some'.mp h
      obtain ⟨c, hget, hscan⟩ := ih j hj
      refine ⟨c, ?_, ?_⟩
      · rw [← hij, List.getElem?_cons_succ]; exact hget
      · rw [selectScan, if_neg hx, hscan, ← hij, List.eraseIdx_cons_succ]
        rfl

theorem selectSorted_eq_scan (l : List Entry) (now : Int) :
    selectSorted l now =
      (selectScan now l).map (fun p => (p.1, p.2.find? (startGt now))) := by
  cases hidx : l.findIdx? (wEndGt now) with
  | none =>
    have h1 : selectScan now l = none := (selectScan_none_iff_findIdx now l).mpr hidx
    simp [selectSorted, hidx, h1]
  | some i =>
    obtain ⟨c, hget, hscan⟩ := selectScan_of_findIdx now l i hidx
    simp [selectSorted, hidx, hget, hscan]

theorem wEndGt_eq_false_iff (now : Int) (e : Entry) :
    wEndGt now e = false ↔ windowEnd e ≤ now := by
  simp [wEndGt, not_lt]

theorem wEndGt_eq_true_iff (now : Int) (e : Entry) :
    wEndGt now e = true ↔ now < windowEnd e := by
  simp [wEndGt]

theorem startGt_eq_true_iff (now : Int) (e : Entry) :
    startGt now e = true ↔ now < e.start_time := by
  simp [startGt]

theorem select_map_fst (entries : List Entry) (now : Int) :
    (select entries now).map Prod.fst = (sortEntries entries).find? (wEndGt now) := by
  rw [select, selectSorted_eq_scan, Option.map_map]
  have hcomp : (Prod.fst ∘ fun p : Entry × List Entry =>
      (p.1, p.2.find? (startGt now))) = Prod.fst := rfl
  rw [hcomp, selectScan_map_fst]

theorem select_eq_none_iff (entries : List Entry) (now : Int) :
    select entries now = none ↔ ∀ e ∈ entries, windowEnd e ≤ now := by
  rw [select, selectSorted_eq_scan, Option.map_eq_none', selectScan_eq_none_iff]
  constructor
  · intro h e he
    exact (wEndGt_eq_false_iff now e).mp
      (h e ((List.mem_insertionSort entryLE).mpr he))
  · intro h e he
    exact (wEndGt_eq_false_iff now e).mpr
      (h e ((List.mem_insertionSort entryLE).mp he))

theorem select_eq_some_char (entries : List Entry) (now : Int) (cur : Entry)
    (nxt : Option Entry) (h : select entries now = some (cur, nxt)) :
    ∃ pre post, sortEntries entries = pre ++ cur :: post ∧
      (∀ e ∈ pre, windowEnd e ≤ now) ∧ now < windowEnd cur ∧
      nxt = (pre ++ post).find? (startGt now) := by
  rw [select, selectSorted_eq_scan] at h
  obtain ⟨⟨c, r⟩, hscan, heq⟩ := Option.map_eq_some'.mp h
  obtain ⟨hc, hn⟩ : c = cur ∧ r.find? (startGt now) = nxt := by
    simpa [Prod.ext_iff] using heq
  subst hc
  obtain ⟨pre, post, hsort, hr, hpre, hcur⟩ := selectScan_eq_some now _ _ _ hscan
  exact ⟨pre, post, hsort,
    fun e he => (wEndGt_eq_false_iff now e).mp (hpre e he),
    (wEndGt_eq_true_iff now c).mp hcur, by rw [← hn, hr]⟩

/-! Helper lemmas about the Row Pairer. -/

theorem pairRows_length {α : Type} : ∀ l : List α,
    (pairRows l).length = l.length / 2
  | [] => by simp [pairRows]
  | [_] => by simp [pairRows]
  | x :: y :: rest => by
    simp only [pairRows, List.length_cons, pairRows_length rest]
    omega

theorem pairRows_flatten {α : Type} : ∀ l : List α,
    ((pairRows l).map (fun p => [p.1, p.2])).flatten = l.take (2 * (l.length / 2))
  | [] => by simp [pairRows]
  | [_] => by simp [pairRows]
  | x :: y :: rest => by
    have hcount : 2 * ((rest.length + 1 + 1) / 2) = 2 * (rest.length / 2) + 2 := by
      omega
    simp only [pairRows, List.map_cons, List.flatten_cons, List.length_cons, hcount,
      List.take_succ_cons, List.cons_append, List.nil_append, pairRows_flatten rest]

/-! Helper lemmas about the sort: equality with the unwrap-explicit
version, and stability. -/

theorem orderedInsertChk_eq (x : Entry) : ∀ l : List Entry,
    orderedInsertChk x l = some (List.orderedInsert entryLE x l)
  | [] => rfl
  | y :: ys => by
    rw [orderedInsertChk, List.orderedInsert]
    by_cases h : entryLE x y
    · by_cases h1 : x.start_time < y.start_time
      · simp [timestampCmpOpt, timestampOrd, h1, if_pos h]
      · have h2 : x.start_time = y.start_time :=
          le_antisymm h (not_lt.mp h1)
        simp [timestampCmpOpt, timestampOrd, h1, h2, if_pos h]
    · have h1 : ¬ x.start_time < y.start_time := fun hl =>
        h (le_of_lt hl)
      have h2 : x.start_time ≠ y.start_time := fun he => h (le_of_eq he)
      simp [timestampCmpOpt, timestampOrd, h1, h2, if_neg h,
        orderedInsertChk_eq x ys]

theorem sortEntriesChk_eq : ∀ l : List Entry,
    sortEntriesChk l = some (sortEntries l)
  | [] => rfl
  | x :: xs => by
    rw [sortEntriesChk, sortEntriesChk_eq xs]
    simp only [Option.bind_eq_bind, Option.some_bind, orderedInsertChk_eq]
    simp [sortEntries, List.insertionSort]

theorem filter_orderedInsert (x : Entry) (t : Int) : ∀ l : List Entry,
    (List.orderedInsert entryLE x l).filter (fun e => e.start_time == t) =
      if x.start_time == t then
        x :: l.filter (fun e => e.start_time == t)
      else l.filter (fun e => e.start_time == t)
  | [] => by simp [List.orderedInsert, List.filter_cons]
  | y :: ys => by
    rw [List.orderedInsert]
    by_cases hxy : entryLE x y
    · rw [if_pos hxy]
      by_cases hx : x.start_time == t <;> simp [List.filter_cons, hx]
    · rw [if_neg hxy]
      have hlt : y.start_time < x.start_time := by
        simpa [entryLE, not_le] using hxy
      by_cases hx : x.start_time == t
      · have hxt : x.start_time = t := by simpa using hx
        have hy : (y.start_time == t) = false := by
          simp only [beq_eq_false_iff_ne, ne_eq, ← hxt]
          exact ne_of_lt hlt
        simp [List.filter_cons, hy, filter_orderedInsert x t ys, hx]
      · simp [List.filter_cons, filter_orderedInsert x t ys, hx]

theorem filter_sortEntries (l : List Entry) (t : Int) :
    (sortEntries l).filter (fun e => e.start_time == t) =
      l.filter (fun e => e.start_time == t) := by
  induction l with
  | nil => rfl
  | cons x xs ih =>
    simp only [sortEntries, List.insertionSort] at *
    rw [filter_orderedInsert, ih]
    by_cases hx : x.start_time == t <;> simp [List.filter_cons, hx]

/-! The claims. -/

/-- Claim C1: for every list of entries and every instant `now`, the
Timeline Selector picks as current the first entry, in the list sorted
ascending by `start_time`, whose window end (`start_time + length`, zero
duration when `length` is absent) is strictly greater than `now`; the
sorted list is ascending in `start_time` and a permutation of the
input. -/
theorem gdq_c1_current_is_first_unended (entries : List Entry) (now : Int) :
    (select entries now).map Prod.fst = (sortEntries entries).find? (wEndGt now)
    ∧ List.Sorted entryLE (sortEntries entries)
    ∧ (sortEntries entries).Perm entries :=
  ⟨select_map_fst entries now, List.sorted_insertionSort entryLE entries,
    List.perm_insertionSort entryLE entries⟩

/-- Claim C2 counterexample: an entry with absent length starting at time
10 is selected as current at `now = 0` — not only at `now == start_time` —
and at the exact instant `now = start_time = 10` it is not selected at
all: the scan already skips it and the selection fails. -/
theorem gdq_c2_counterexample :
    zeroLenEntry.length = none ∧ zeroLenEntry.start_time = 10 ∧
      (select [zeroLenEntry] 0).map Prod.fst = some zeroLenEntry ∧
      select [zeroLenEntry] 10 = none := by
  decide

/-- Claim C2 (amended): for every entry whose length is zero or absent the
window end equals `start_time`, so the strict `end > now` scan skips the
entry whenever `start_time ≤ now` — including the exact instant
`now == start_time` — falling through to later entries; such an entry can
be current only while `now < start_time`. -/
theorem gdq_c2_zero_length_skipped (entries : List Entry) (now : Int)
    (e : Entry) (hlen : e.length.getD 0 = 0) (hnow : e.start_time ≤ now) :
    (select entries now).map Prod.fst ≠ some e := by
  intro h
  rw [select_map_fst] at h
  have hp := List.find?_some h
  rw [wEndGt_eq_true_iff] at hp
  rw [windowEnd, hlen] at hp
  omega

theorem gdq_c2_zero_length_skipped_witness :
    (select [zeroLenEntry] 10).map Prod.fst ≠ some zeroLenEntry :=
  gdq_c2_zero_length_skipped [zeroLenEntry] 10 zeroLenEntry (by decide) (by decide)

/-- Claim C3: selection fails (the `NoCurrentEvent` outcome, modelled as
`none`) exactly when every entry's window end is at most `now`, including
the empty-list case, and the failure is non-fatal: the pass still renders
the error text instead of crashing. -/
theorem gdq_c3_no_current_event (entries : List Entry) (now : Int) :
    (select entries now = none ↔ ∀ e ∈ entries, windowEnd e ≤ now)
    ∧ select ([] : List Entry) now = none
    ∧ (select entries now = none → renderUpdate entries now = "ERR") := by
  refine ⟨select_eq_none_iff entries now, ?_, ?_⟩
  · exact (select_eq_none_iff [] now).mpr (by simp)
  · intro h
    simp [renderUpdate, h, renderSelection]

theorem gdq_c3_no_current_event_witness :
    select [endedEntry] 100 = none ∧ renderUpdate [endedEntry] 100 = "ERR" := by
  have h := gdq_c3_no_current_event [endedEntry] 100
  have h1 : select [endedEntry] 100 = none := h.1.mpr (by decide)
  exact ⟨h1, h.2.2 h1⟩

/-- Claim C4: whenever a current entry exists, the sorted list splits as
`pre ++ current :: post` with every `pre` window already ended, and `next`
is exactly the first of the remaining sorted entries (current removed)
whose start is strictly after `now`; `find?` returning `none` (absent
next) is part of the same non-failing outcome. -/
theorem gdq_c4_next_selection (entries : List Entry) (now : Int) (cur : Entry)
    (nxt : Option Entry) (h : select entries now = some (cur, nxt)) :
    ∃ pre post, sortEntries entries = pre ++ cur :: post ∧
      (∀ e ∈ pre, windowEnd e ≤ now) ∧ now < windowEnd cur ∧
      nxt = (pre ++ post).find? (startGt now) :=
  select_eq_some_char entries now cur nxt h

theorem gdq_c4_next_selection_witness :
    ∃ pre post, sortEntries [runA, runB] = pre ++ runA :: post ∧
      (∀ e ∈ pre, windowEnd e ≤ 10) ∧ (10 : Int) < windowEnd runA ∧
      (some runB : Option Entry) = (pre ++ post).find? (startGt 10) :=
  gdq_c4_next_selection [runA, runB] 10 runA (some runB) (by decide)

/-- Claim C5: the Row Pairer yields `len/2` pairs for even input length,
`(len-1)/2` pairs for odd length, and the pairs flatten back to the
untouched input prefix — original order, only the final unpaired row
dropped. -/
theorem gdq_c5_pairing (α : Type) (l : List α) :
    (l.length % 2 = 0 → (pairRows l).length = l.length / 2)
    ∧ (l.length % 2 = 1 → (pairRows l).length = (l.length - 1) / 2)
    ∧ ((pairRows l).map (fun p => [p.1, p.2])).flatten =
        l.take (2 * (pairRows l).length) := by
  refine ⟨fun _ => pairRows_length l, fun hodd => ?_, ?_⟩
  · rw [pairRows_length l]; omega
  · rw [pairRows_length l]; exact pairRows_flatten l

theorem gdq_c5_pairing_witness :
    (pairRows ([0, 1, 2] : List Nat)).length =
      (([0, 1, 2] : List Nat).length - 1) / 2 :=
  (gdq_c5_pairing Nat [0, 1, 2]).2.1 (by decide)

/-- Claim C6: a record whose `start_time` text fails to parse is rejected
by the Entry Builder, and the built output over any record list is as if
the record were not there: it is never present in the output. -/
theorem gdq_c6_bad_start_time_discarded (r : Record) (rs1 rs2 : List Record)
    (h : parseRFC3339 r.start_time = none) :
    entryTryFrom r = none ∧
      buildEntries (rs1 ++ r :: rs2) = buildEntries (rs1 ++ rs2) := by
  have h1 : entryTryFrom r = none := by simp only [entryTryFrom, h]
  exact ⟨h1, by simp [buildEntries, List.filterMap_append, List.filterMap_cons, h1]⟩

theorem gdq_c6_bad_start_time_discarded_witness :
    entryTryFrom badRec = none ∧
      buildEntries ([] ++ badRec :: []) = buildEntries ([] ++ []) :=
  gdq_c6_bad_start_time_discarded badRec [] [] (by decide)

/-- Claim C7: when `start_time` parses, the record always yields an entry;
an unparsable `length` or `setup_time` does not cause a discard — the
field is simply absent — and the free-text fields pass through
unchanged. -/
theorem gdq_c7_optional_durations (r : Record) (t : Int)
    (h : parseRFC3339 r.start_time = some t) :
    ∃ e, entryTryFrom r = some e ∧ e.start_time = t ∧
      e.length = (parseHMS r.length).map (fun n => (n : Int)) ∧
      e.setup_time = (parseHMS r.setup_time).map (fun n => (n : Int)) ∧
      (parseHMS r.length = none → e.length = none) ∧
      (parseHMS r.setup_time = none → e.setup_time = none) ∧
      e.title = r.title ∧ e.runner = r.runner ∧
      e.category = r.category ∧ e.host = r.host := by
  refine ⟨{ start_time := t
            length := (parseHMS r.length).map (fun n => (n : Int))
            setup_time := (parseHMS r.setup_time).map (fun n => (n : Int))
            title := r.title
            runner := r.runner
            category := r.category
            host := r.host },
    ?_, rfl, rfl, rfl, ?_, ?_, rfl, rfl, rfl, rfl⟩
  · simp only [entryTryFrom, h]
  · intro hl; simp [hl]
  · intro hs; simp [hs]

theorem gdq_c7_optional_durations_witness :
    ∃ e, entryTryFrom goodRec = some e ∧ e.start_time = 1704067200 ∧
      e.length = (parseHMS goodRec.length).map (fun n => (n : Int)) ∧
      e.setup_time = (parseHMS goodRec.setup_time).map (fun n => (n : Int)) ∧
      (parseHMS goodRec.length = none → e.length = none) ∧
      (parseHMS goodRec.setup_time = none → e.setup_time = none) ∧
      e.title = goodRec.title ∧ e.runner = goodRec.runner ∧
      e.category = goodRec.category ∧ e.host = goodRec.host :=
  gdq_c7_optional_durations goodRec 1704067200 (by decide)

/-- Claim C8: the sort is stable — for every start time, the subsequence
of entries carrying that start time is exactly the same before and after
sorting, so entries with identical `start_time` retain their original
relative order. -/
theorem gdq_c8_sort_stable (l : List Entry) (t : Int) :
    (sortEntries l).filter (fun e => e.start_time == t) =
      l.filter (fun e => e.start_time == t) :=
  filter_sortEntries l t

/-- Claim C9: the comparator on `start_time` timestamps is total — its
`partial_cmp` model never returns `None`, so the unwrap in the sort of
line 194 is unreachable — and the selection-and-render pass with the
unwrap made explicit always succeeds with the renderable text of the
total model: no panic, every outcome renders. -/
theorem gdq_c9_no_panic :
    (∀ a b : Int, (timestampCmpOpt a b).isSome = true)
    ∧ ∀ (entries : List Entry) (now : Int),
        renderUpdateChk entries now = some (renderUpdate entries now) := by
  refine ⟨fun a b => rfl, fun entries now => ?_⟩
  simp only [renderUpdateChk, sortEntriesChk_eq, Option.map_some]
  rfl

/-- Claim C10: when both a current and a next entry are selected — over
entries with non-negative lengths, which is what the Entry Builder
produces — the next entry is a distinct element drawn from the sorted
list with the current occurrence removed, and it never starts before the
current entry. -/
theorem gdq_c10_next_after_current (entries : List Entry) (now : Int)
    (cur nxt : Entry) (hlen : ∀ e ∈ entries, 0 ≤ e.length.getD 0)
    (h : select entries now = some (cur, some nxt)) :
    cur.start_time ≤ nxt.start_time ∧
      ∃ pre post, sortEntries entries = pre ++ cur :: post ∧
        nxt ∈ pre ++ post := by
  obtain ⟨pre, post, hsort, hpre, hcur, hnxt⟩ :=
    select_eq_some_char entries now cur (some nxt) h
  have hmem : nxt ∈ pre ++ post := List.mem_of_find?_eq_some hnxt.symm
  have hstart : now < nxt.start_time := by
    have hq := List.find?_some hnxt.symm
    rwa [startGt_eq_true_iff] at hq
  refine ⟨?_, pre, post, hsort, hmem⟩
  rcases List.mem_append.mp hmem with hin | hin
  · exfalso
    have hend : windowEnd nxt ≤ now := hpre nxt hin
    have hnn : 0 ≤ nxt.length.getD 0 := by
      apply hlen
      have hms : nxt ∈ sortEntries entries := by
        rw [hsort]
        exact List.mem_append_left (cur :: post) hin
      exact (List.mem_insertionSort entryLE).mp hms
    rw [windowEnd] at hend
    omega
  · have hsorted : List.Pairwise entryLE (pre ++ cur :: post) := by
      have hs := List.sorted_insertionSort entryLE entries
      rw [sortEntries] at hsort
      rwa [hsort] at hs
    have hp := (List.pairwise_append).mp hsorted
    exact (List.pairwise_cons.mp hp.2.1).1 nxt hin

theorem gdq_c10_next_after_current_witness :
    runA.start_time ≤ runB.start_time ∧
      ∃ pre post, sortEntries [runA, runB] = pre ++ runA :: post ∧
        runB ∈ pre ++ post :=
  gdq_c10_next_after_current [runA, runB] 10 runA runB (by decide) (by decide)

end GDQ
